import Mathlib

/-!
Shallow embedding of the traffic-control core of the nginx-js repository:
the circuit breaker, the rate limiter, the load balancer, the router and
the plugin hook pipeline.  Machine numbers of the JavaScript source are
modelled as `Nat`/`Int`/`ℚ`; timestamps are exact integers or rationals.
Each definition mirrors one function of the TypeScript source.
-/

namespace NginxJS

/-! Circuit breaker (src/packages/features/src/CircuitBreaker.ts). -/

inductive CircuitState where
  | closed
  | opened
  | halfOpen
deriving DecidableEq, Repr

structure CircuitBreaker where
  state : CircuitState
  failureCount : Nat
  successCount : Nat
  totalRequests : Nat
  lastFailureTime : Option Int
  requestTimestamps : List Int
  failureThreshold : ℚ
  successThreshold : Nat
  resetTimeout : Int
  monitoringPeriod : Int
deriving DecidableEq, Repr

/-- Breaker produced by the constructor with an empty config:
`failureThreshold = 0.5`, `successThreshold = 5`, `resetTimeout = 60000`,
`monitoringPeriod = 10000`, starting in `CLOSED`. -/
def defaultBreaker : CircuitBreaker :=
  { state := .closed
    failureCount := 0
    successCount := 0
    totalRequests := 0
    lastFailureTime := none
    requestTimestamps := []
    failureThreshold := mkRat 1 2
    successThreshold := 5
    resetTimeout := 60000
    monitoringPeriod := 10000 }

/-- Mirrors `_cleanOldRequests`: prune timestamps at or before
`now - monitoringPeriod` and, when fewer timestamps survive than
`totalRequests`, clamp `totalRequests` to the surviving count and
`failureCount` to `totalRequests`. -/
def cleanOldRequests (cb : CircuitBreaker) (now : Int) : CircuitBreaker :=
  let cutoff := now - cb.monitoringPeriod
  let ts := cb.requestTimestamps.filter (fun t => cutoff < t)
  if ts.length < cb.totalRequests then
    { cb with
        requestTimestamps := ts
        totalRequests := ts.length
        failureCount := min cb.failureCount ts.length }
  else
    { cb with requestTimestamps := ts }

/-- Mirrors `_onSuccess`: bump the total, prune the window, and in
`HALF_OPEN` count the success, closing the breaker (and zeroing the
failure and success counters) once `successThreshold` is reached. -/
def onSuccess (cb : CircuitBreaker) (now : Int) : CircuitBreaker :=
  let cb1 := cleanOldRequests { cb with totalRequests := cb.totalRequests + 1 } now
  if cb1.state = .halfOpen then
    let cb2 := { cb1 with successCount := cb1.successCount + 1 }
    if cb2.successThreshold ≤ cb2.successCount then
      { cb2 with state := .closed, failureCount := 0, successCount := 0 }
    else
      cb2
  else
    cb1

/-- Exact rational quotient `a / b` of two natural counters, as a single
kernel-computable operation (`ratio_eq_div` identifies it with ordinary
rational division; for `b = 0` both sides are `0`, and the only use
compares the quotient against a positive threshold, which is false there
just as JavaScript's `NaN` comparison is). -/
def ratio (a b : Nat) : ℚ := mkRat a b

/-- Mirrors `_onFailure`: bump total and failure counts, record the
failure time, push the timestamp, prune the window; a `HALF_OPEN` failure
reopens, otherwise the breaker opens when the failure rate reaches the
threshold on at least 10 requests. -/
def onFailure (cb : CircuitBreaker) (now : Int) : CircuitBreaker :=
  let cb1 := cleanOldRequests
    { cb with
        totalRequests := cb.totalRequests + 1
        failureCount := cb.failureCount + 1
        lastFailureTime := some now
        requestTimestamps := cb.requestTimestamps ++ [now] } now
  if cb1.state = .halfOpen then
    { cb1 with state := .opened, successCount := 0 }
  else
    let failureRate : ℚ := ratio cb1.failureCount cb1.totalRequests
    if cb1.failureThreshold ≤ failureRate ∧ 10 ≤ cb1.totalRequests then
      { cb1 with state := .opened }
    else
      cb1

/-- Mirrors `_shouldAttemptReset`; a JavaScript-falsy `lastFailureTime`
(absent or `0`) is never eligible. -/
def shouldAttemptReset (cb : CircuitBreaker) (now : Int) : Bool :=
  match cb.lastFailureTime with
  | none => false
  | some t => if t = 0 then false else decide (cb.resetTimeout ≤ now - t)

inductive AllowDecision where
  | rejected
  | admitted (cb : CircuitBreaker)
deriving DecidableEq, Repr

/-- Admission phase of `allow`: an `OPEN` breaker either rejects (the
operation is never invoked) or moves to `HALF_OPEN` when the reset
timeout has elapsed; every other state admits the call unchanged. -/
def admitPhase (cb : CircuitBreaker) (now : Int) : AllowDecision :=
  if cb.state = .opened then
    if shouldAttemptReset cb now then
      .admitted { cb with state := .halfOpen }
    else
      .rejected
  else
    .admitted cb

/-- One whole `allow` call whose guarded operation settles with outcome
`ok` (a timeout counts as `ok = false`): `none` means the call was
rejected with the circuit-open error and the operation never ran. -/
def allowCall (cb : CircuitBreaker) (now : Int) (ok : Bool) :
    Option CircuitBreaker :=
  match admitPhase cb now with
  | .rejected => none
  | .admitted cb1 => some (if ok then onSuccess cb1 now else onFailure cb1 now)

/-- Run a sequence of `allow` calls, each given as a timestamp and an
outcome; a rejected call leaves the breaker unchanged. -/
def runCalls (cb : CircuitBreaker) (calls : List (Int × Bool)) :
    CircuitBreaker :=
  calls.foldl (fun c p => (allowCall c p.1 p.2).getD c) cb

/-- The attempt timestamps (failure timestamps only — successes are
never pushed) that survive the monitoring window when a failure at
`now` is recorded. -/
def survivors (cb : CircuitBreaker) (now : Int) : List Int :=
  (cb.requestTimestamps ++ [now]).filter
    (fun t => now - cb.monitoringPeriod < t)

/-- Iterate `n` successful completions at one timestamp. -/
def onSuccessIter (now : Int) : Nat → CircuitBreaker → CircuitBreaker
  | 0, cb => cb
  | n + 1, cb => onSuccessIter now n (onSuccess cb now)

/-! Rate limiter (src/packages/features/src/RateLimiter.ts).  JavaScript
numbers and timestamps are modelled as rationals. -/

structure RequestRecord where
  count : ℚ
  resetTime : ℚ
  timestamps : List ℚ
  tokens : ℚ
  lastRefill : ℚ
deriving DecidableEq, Repr

/-- Mirrors `_createRecord` at time `now`. -/
def createRecord (now windowMs maxRequests : ℚ) : RequestRecord :=
  { count := 0
    resetTime := now + windowMs
    timestamps := []
    tokens := maxRequests
    lastRefill := now }

/-- Mirrors `_fixedWindow`. -/
def fixedWindow (windowMs maxRequests : ℚ) (r : RequestRecord) (now : ℚ) :
    Bool × RequestRecord :=
  let r1 := if r.resetTime ≤ now then
    { r with count := 0, resetTime := now + windowMs } else r
  if maxRequests ≤ r1.count then (false, r1)
  else (true, { r1 with count := r1.count + 1 })

/-- Mirrors `_slidingWindow`; only an admitted request appends its
timestamp and refreshes `count`. -/
def slidingWindow (windowMs maxRequests : ℚ) (r : RequestRecord) (now : ℚ) :
    Bool × RequestRecord :=
  let ts := r.timestamps.filter (fun t => now - windowMs < t)
  if maxRequests ≤ (ts.length : ℚ) then (false, { r with timestamps := ts })
  else (true,
    { r with timestamps := ts ++ [now], count := (ts.length : ℚ) + 1 })

/-- Mirrors `_tokenBucket`; a JavaScript-falsy `lastRefill` (zero) counts
as "now", i.e. as no elapsed time. -/
def tokenBucket (windowMs maxRequests : ℚ) (r : RequestRecord) (now : ℚ) :
    Bool × RequestRecord :=
  let lastRefill := if r.lastRefill = 0 then now else r.lastRefill
  let timePassed := now - lastRefill
  let tokensToAdd := timePassed / windowMs * maxRequests
  let tokens := min maxRequests (r.tokens + tokensToAdd)
  let r1 := { r with tokens := tokens, lastRefill := now }
  if r1.tokens < 1 then (false, r1)
  else (true, { r1 with tokens := r1.tokens - 1 })

/-- Mirrors `_leakyBucket`. -/
def leakyBucket (windowMs maxRequests : ℚ) (r : RequestRecord) (now : ℚ) :
    Bool × RequestRecord :=
  let lastRefill := if r.lastRefill = 0 then now else r.lastRefill
  let timePassed := now - lastRefill
  let leaked := timePassed / windowMs * maxRequests
  let r1 := { r with count := max 0 (r.count - leaked), lastRefill := now }
  if maxRequests ≤ r1.count then (false, r1)
  else (true, { r1 with count := r1.count + 1 })

/-- Time-based part of `_fixedWindow` alone: the window reset that every
call performs before deciding. -/
def fwDecay (windowMs : ℚ) (r : RequestRecord) (now : ℚ) : RequestRecord :=
  if r.resetTime ≤ now then { r with count := 0, resetTime := now + windowMs }
  else r

/-- Time-based part of `_slidingWindow` alone: pruning of expired
timestamps (the stale `count` field is untouched on a denial). -/
def swDecay (windowMs : ℚ) (r : RequestRecord) (now : ℚ) : RequestRecord :=
  { r with timestamps := r.timestamps.filter (fun t => now - windowMs < t) }

/-- Time-based part of `_tokenBucket` alone: the continuous refill. -/
def tbDecay (windowMs maxRequests : ℚ) (r : RequestRecord) (now : ℚ) :
    RequestRecord :=
  let lastRefill := if r.lastRefill = 0 then now else r.lastRefill
  { r with
      tokens := min maxRequests
        (r.tokens + (now - lastRefill) / windowMs * maxRequests)
      lastRefill := now }

/-- Time-based part of `_leakyBucket` alone: the continuous leak. -/
def lbDecay (windowMs maxRequests : ℚ) (r : RequestRecord) (now : ℚ) :
    RequestRecord :=
  let lastRefill := if r.lastRefill = 0 then now else r.lastRefill
  { r with
      count := max 0 (r.count - (now - lastRefill) / windowMs * maxRequests)
      lastRefill := now }

/-- Iterate `n` token-bucket calls at one fixed instant. -/
def tbIter (windowMs maxRequests t : ℚ) : Nat → RequestRecord → RequestRecord
  | 0, r => r
  | n + 1, r => tbIter windowMs maxRequests t n (tokenBucket windowMs maxRequests r t).2

/-- A token-bucket record as it evolves from `createRecord`: zero
count, fixed reset time `rt`, no timestamps, `x` tokens, last refilled
at `t`. -/
def tbState (rt t x : ℚ) : RequestRecord :=
  { count := 0
    resetTime := rt
    timestamps := []
    tokens := x
    lastRefill := t }

/-! Request context shared by the router and the load balancer: only the
fields those components read (`url` and the string-valued metadata bag)
are modelled. -/

structure RequestContext where
  url : String
  metadata : Option (List (String × String))

/-- Object-style key update on the metadata bag: an existing key is
overwritten in place, a new key is appended. -/
def setKV (m : List (String × String)) (k v : String) :
    List (String × String) :=
  if m.any (fun p => p.1 = k) then
    m.map (fun p => if p.1 = k then (k, v) else p)
  else
    m ++ [(k, v)]

/-- Object-style property read on the metadata bag. -/
def getKV (m : List (String × String)) (k : String) : Option String :=
  match m with
  | [] => none
  | p :: rest => if p.1 = k then some p.2 else getKV rest k

/-! Load balancer (src/packages/features/src/LoadBalancer.ts).  The
`Math.random()` draw of a call is passed in explicitly as a rational in
`[0, 1)`. -/

structure BackendServer where
  url : String
  weight : ℚ
  enabled : Bool
  healthy : Bool
deriving DecidableEq, Repr

inductive BalanceStrategy where
  | roundRobin
  | weightedRoundRobin
  | leastConnections
  | ipHash
  | random
  | fastest
deriving DecidableEq, Repr

structure LoadBalancer where
  servers : List BackendServer
  strategy : BalanceStrategy
  currentIndex : Nat
  connectionCounts : List (String × Nat)
  responseTimes : List (String × List ℚ)

/-- Mirrors `_getHealthyServers`. -/
def getHealthyServers (lb : LoadBalancer) : List BackendServer :=
  lb.servers.filter (fun s => s.enabled && s.healthy)

/-- JavaScript `server.weight || 1`: a zero (falsy) weight counts as 1. -/
def effWeight (s : BackendServer) : ℚ := if s.weight = 0 then 1 else s.weight

/-- Walk of `_weightedRoundRobin`: subtract weights until the running
draw is non-positive. -/
def weightedWalk (r : ℚ) : List BackendServer → Option BackendServer
  | [] => none
  | s :: rest =>
      if r - effWeight s ≤ 0 then some s else weightedWalk (r - effWeight s) rest

/-- Mirrors `_weightedRoundRobin` for the draw `rand ∈ [0,1)`; the loop
falls back to `servers[0]` when it runs off the end. -/
def weightedRoundRobin (servers : List BackendServer) (rand : ℚ) :
    Option BackendServer :=
  let totalWeight := servers.foldl (fun acc s => acc + effWeight s) 0
  match weightedWalk (rand * totalWeight) servers with
  | some s => some s
  | none => servers.head?

/-- Connection count of a server (`connectionCounts.get(url) || 0`). -/
def connCount (lb : LoadBalancer) (url : String) : Nat :=
  (lb.connectionCounts.lookup url).getD 0

/-- Mirrors `_leastConnections` (`Array.prototype.reduce`, keeping the
earlier server on ties). -/
def leastConnections (lb : LoadBalancer) :
    List BackendServer → Option BackendServer
  | [] => none
  | s :: rest => some (rest.foldl
      (fun m x => if connCount lb x.url < connCount lb m.url then x else m) s)

/-- Wrap an integer to a signed 32-bit value, as `hash & hash` does. -/
def toInt32 (n : Int) : Int := (n + 2 ^ 31) % 2 ^ 32 - 2 ^ 31

/-- Mirrors `_hashCode`: the classic `(hash << 5) - hash + char` string
hash over UTF-16 code units, wrapped to 32 bits each step. -/
def hashCode (s : String) : Int :=
  s.data.foldl (fun h c => toInt32 (toInt32 (h * 32) - h + (c.toNat : Int))) 0

/-- Mirrors `_ipHash`: hash the client IP from the metadata bag (fall
back to the URL) and index modulo the filtered count. -/
def ipHash (servers : List BackendServer) (ctx : RequestContext) :
    Option BackendServer :=
  let ip := (ctx.metadata.bind (fun m => m.lookup "clientIp")).getD ctx.url
  servers.get? ((hashCode ip).natAbs % servers.length)

/-- Mirrors `_random` for the draw `rand ∈ [0,1)`. -/
def randomPick (servers : List BackendServer) (rand : ℚ) :
    Option BackendServer :=
  servers.get? (⌊rand * (servers.length : ℚ)⌋).toNat

/-- Mirrors `_getAverageResponseTime`; `none` stands for the `Infinity`
returned for a server with no samples. -/
def avgResponseTime (lb : LoadBalancer) (url : String) : Option ℚ :=
  match lb.responseTimes.lookup url with
  | none => none
  | some [] => none
  | some ts => some (ts.sum / (ts.length : ℚ))

/-- Strict comparison of average times where `none` is `Infinity`. -/
def avgLt (a b : Option ℚ) : Bool :=
  match a, b with
  | some x, some y => decide (x < y)
  | some _, none => true
  | none, _ => false

/-- Mirrors `_fastest` (`reduce`, keeping the earlier server on ties). -/
def fastest (lb : LoadBalancer) :
    List BackendServer → Option BackendServer
  | [] => none
  | s :: rest => some (rest.foldl
      (fun m x =>
        if avgLt (avgResponseTime lb x.url) (avgResponseTime lb m.url) then x
        else m) s)

/-- Mirrors `getNextServer`: filter to enabled-and-healthy servers,
return `none` when the filtered set is empty, otherwise dispatch on the
strategy (only round robin mutates the balancer, by advancing its
index). -/
def getNextServer (lb : LoadBalancer) (ctx : RequestContext) (rand : ℚ) :
    Option BackendServer × LoadBalancer :=
  let available := getHealthyServers lb
  if available.length = 0 then (none, lb)
  else
    match lb.strategy with
    | .roundRobin =>
        (available.get? (lb.currentIndex % available.length),
          { lb with currentIndex := lb.currentIndex + 1 })
    | .weightedRoundRobin => (weightedRoundRobin available rand, lb)
    | .leastConnections => (leastConnections lb available, lb)
    | .ipHash => (ipHash available ctx, lb)
    | .random => (randomPick available rand, lb)
    | .fastest => (fastest lb available, lb)

/-- Run `n` successive `getNextServer` calls, collecting the picks. -/
def runPicks (ctx : RequestContext) (rand : ℚ) :
    Nat → LoadBalancer → List (Option BackendServer)
  | 0, _ => []
  | n + 1, lb =>
      let p := getNextServer lb ctx rand
      p.1 :: runPicks ctx rand n p.2

/-! Router (src/src/features/Router.ts).  JavaScript regular expressions
are modelled by a small backtracking regex with greedy wildcards and
capture groups, enough to express the patterns the router builds and
uses. -/

inductive Rx where
  | eps
  | ch (c : Char)
  | anyOne
  | anyStar
  | grp (r : Rx)
  | cat (a b : Rx)
deriving Repr

/-- Literal regex for a character sequence. -/
def Rx.lit (s : List Char) : Rx := s.foldr (fun c r => .cat (.ch c) r) .eps

/-- All prefix/suffix splits of a list, longest prefix first — the order
in which a greedy `.*` tries to consume. -/
def splitsDesc : List Char → List (List Char × List Char)
  | [] => [([], [])]
  | c :: r => ((splitsDesc r).map (fun p => (c :: p.1, p.2))) ++ [([], c :: r)]

/-- Backtracking matcher: all ways `r` can match a prefix of `s`, each as
(consumed input, captured groups in group order, remaining input), listed
in the regex engine's backtracking priority order (greedy first). -/
def rxAll : Rx → List Char → List (List Char × List (List Char) × List Char)
  | .eps, s => [([], [], s)]
  | .ch _, [] => []
  | .ch c, x :: r => if x = c then [([x], [], r)] else []
  | .anyOne, [] => []
  | .anyOne, x :: r => [([x], [], r)]
  | .anyStar, s => (splitsDesc s).map (fun p => (p.1, [], p.2))
  | .grp r, s => (rxAll r s).map (fun t => (t.1, t.1 :: t.2.1, t.2.2))
  | .cat a b, s =>
      (rxAll a s).flatMap (fun t =>
        (rxAll b t.2.2).map (fun u => (t.1 ++ u.1, t.2.1 ++ u.2.1, u.2.2)))

/-- Unanchored search, as `url.match(regexp)` performs for a plain
regular-expression pattern: try each start position left to right and
return the first match (full match, then groups). -/
def rxSearch (r : Rx) : List Char → Option (List Char × List (List Char))
  | [] => ((rxAll r []).head?).map (fun t => (t.1, t.2.1))
  | c :: rest =>
      match (rxAll r (c :: rest)).head? with
      | some t => some (t.1, t.2.1)
      | none => rxSearch r rest

/-- Anchored match of the whole input, as the `^...$` regex compiled from
a string pattern performs. -/
def rxMatchFull (r : Rx) (s : List Char) : Option (List (List Char)) :=
  (((rxAll r s).filter (fun t => t.2.2 = [])).head?).map
    (fun t => t.1 :: t.2.1)

/-- The characters that are special in a JavaScript regular expression
(the curly braces are written by code point).  `_matchPattern` passes a
string pattern to `new RegExp` without escaping, so all of them stay
live in the compiled pattern. -/
def regexSpecialChars : List Char :=
  "\\^$.|?*+()[]".data ++ [Char.ofNat 123, Char.ofNat 125]

/-- Whether a character keeps a regex meaning in an unescaped compiled
string pattern. -/
def regexSpecial (c : Char) : Bool := regexSpecialChars.contains c

/-- Compilation of a string pattern, mirroring
`pattern.replace(/\*/g, ".*").replace(/\?/g, ".")` fed unescaped to
`new RegExp`: `*` becomes a greedy any-run, and both `?` (substituted
to `.`) and a literal `.` (left unescaped, hence live) the any-one
wildcard.  The remaining regex-special characters (`regexSpecial`)
have JavaScript semantics this model does not cover; every statement
about string patterns containing them excludes them by hypothesis. -/
def globToRx : List Char → Rx
  | [] => .eps
  | c :: r =>
      if c = '*' then .cat .anyStar (globToRx r)
      else if c = '?' then .cat .anyOne (globToRx r)
      else if c = '.' then .cat .anyOne (globToRx r)
      else .cat (.ch c) (globToRx r)

inductive RulePattern where
  | str (s : String)
  | regex (r : Rx)

inductive RouteTarget where
  | str (s : String)
  | fn (f : RequestContext → Option (List (List Char)) → List Char)

structure RouteRule where
  name : String
  pattern : RulePattern
  target : RouteTarget
  enabled : Bool
  condition : Option (RequestContext → Bool)
  type : String

structure RouteMatch where
  rule : RouteRule
  targetUrl : String
  matchArr : List (List Char)

/-- Mirrors `_matchPattern`: string patterns match anchored after glob
compilation, regex patterns match unanchored; the result is the
JavaScript match array (full match first, then the groups). -/
def matchPattern (url : List Char) :
    RulePattern → Option (List (List Char))
  | .str p => rxMatchFull (globToRx p.data) url
  | .regex r => (rxSearch r url).map (fun t => t.1 :: t.2)

/-- Auxiliary of `replaceSub`: when the skip counter is positive the
characters of an already-replaced occurrence are dropped without being
rescanned. -/
def replaceSubAux (pat rep : List Char) : Nat → List Char → List Char
  | _, [] => []
  | 0, c :: rest =>
      if pat ≠ [] ∧ pat.isPrefixOf (c :: rest) then
        rep ++ replaceSubAux pat rep (pat.length - 1) rest
      else
        c :: replaceSubAux pat rep 0 rest
  | k + 1, _ :: rest => replaceSubAux pat rep k rest

/-- Replace every occurrence of `pat` in a string, left to right, without
rescanning the replacement — the behaviour of
`String.prototype.replace` with a global regex of a literal. -/
def replaceSub (pat rep s : List Char) : List Char :=
  replaceSubAux pat rep 0 s

/-- The placeholder token `$i`. -/
def dollarTok (i : Nat) : List Char := '$' :: (toString i).data

/-- Mirrors `_resolveTarget`: a resolver function is invoked with the
context and the match array; a string target has each `$i` placeholder
replaced by entry `i` of the match array (`$0` = full match, `$1` = first
group, …), in index order. -/
def resolveTarget (t : RouteTarget) (ctx : RequestContext)
    (om : Option (List (List Char))) : List Char :=
  match t with
  | .fn f => f ctx om
  | .str s =>
      match om with
      | none => s.data
      | some ms =>
          (ms.enum).foldl (fun acc p => replaceSub (dollarTok p.1) p.2 acc)
            s.data

/-- Whether `match` stops at this rule: it must be enabled, its condition
(if any) must accept the context, and its pattern must match the URL. -/
def ruleApplies (ctx : RequestContext) (r : RouteRule) : Bool :=
  r.enabled
    && (match r.condition with | none => true | some c => c ctx)
    && (matchPattern ctx.url.data r.pattern).isSome

/-- Mirrors `Router.match`: walk the rules in registration order, skip
disabled rules and rules whose condition rejects, stop at the first rule
whose pattern matches and resolve its target. -/
def routerMatch (ctx : RequestContext) :
    List RouteRule → Option RouteMatch
  | [] => none
  | r :: rest =>
      if r.enabled = false then routerMatch ctx rest
      else if (match r.condition with
                | none => false
                | some c => !(c ctx)) then routerMatch ctx rest
      else
        match matchPattern ctx.url.data r.pattern with
        | some ms =>
            some { rule := r
                   targetUrl := String.mk (resolveTarget r.target ctx (some ms))
                   matchArr := ms }
        | none => routerMatch ctx rest

/-- Mirrors `Router.route`: on a match, record the prior URL and the
winning rule's name and type in the metadata bag, then overwrite the
URL; otherwise return the context unchanged. -/
def route (rules : List RouteRule) (ctx : RequestContext) : RequestContext :=
  match routerMatch ctx rules with
  | none => ctx
  | some m =>
      let meta0 := ctx.metadata.getD []
      let meta := setKV (setKV (setKV meta0 "originalUrl" ctx.url)
        "routeRule" m.rule.name) "routeType" m.rule.type
      { ctx with url := m.targetUrl, metadata := some meta }

/-! Plugin chain (src/unnamed/part_007, `PluginManager.executeHook`).
The hook under execution is modelled as an optional function from the
running value to an optional replacement; the remaining arguments are
fixed across the chain and therefore elided.  The request-type tag
carried by the first argument (when it is a context) is passed
separately as `rt`. -/

inductive RequestType where
  | xhr
  | fetch
  | websocket
deriving DecidableEq, Repr

structure Plugin (V : Type) where
  name : String
  priority : Option Int
  enabled : Bool
  requestTypes : List RequestType
  hook : Option (V → Option V)

/-- JavaScript `plugin.priority || 100`: an absent or zero (falsy)
priority sorts as 100. -/
def effPriority {V : Type} (p : Plugin V) : Int :=
  match p.priority with
  | none => 100
  | some n => if n = 0 then 100 else n

/-- Stable insertion for an ascending sort by effective priority: the new
element goes after every element with a smaller-or-equal key. -/
def insertByPriority {V : Type} (x : Plugin V) :
    List (Plugin V) → List (Plugin V)
  | [] => [x]
  | y :: l =>
      if effPriority y ≤ effPriority x then y :: insertByPriority x l
      else x :: y :: l

/-- The stable ascending sort performed by
`.sort((a, b) => (a.priority || 100) - (b.priority || 100))`. -/
def sortPlugins {V : Type} (ps : List (Plugin V)) : List (Plugin V) :=
  ps.foldl (fun acc x => insertByPriority x acc) []

/-- The request-type filter: a plugin with a non-empty `requestTypes`
list is skipped when the first argument carries a type outside it; a
first argument with no type never filters. -/
def typeMatches {V : Type} (p : Plugin V) (rt : Option RequestType) : Bool :=
  match rt, p.requestTypes with
  | none, _ => true
  | some _, [] => true
  | some t, ts => ts.contains t

/-- Whether the loop body invokes this plugin's hook. -/
def pluginRuns {V : Type} (p : Plugin V) (rt : Option RequestType) : Bool :=
  p.hook.isSome && typeMatches p rt

/-- The fold body of `executeHook`: run the applicable hooks in order; a
hook returning a defined value replaces the running value, a hook
returning nothing leaves it unchanged. -/
def runHooks {V : Type} (rt : Option RequestType) (ps : List (Plugin V))
    (v : V) : V :=
  ps.foldl (fun acc p =>
    match p.hook with
    | none => acc
    | some h =>
        if typeMatches p rt then
          match h acc with
          | some v1 => v1
          | none => acc
        else acc) v

/-- Mirrors `executeHook`: keep the enabled plugins, sort them stably by
effective priority ascending, and thread the primary argument through
the applicable hooks, returning the final running value. -/
def executeHook {V : Type} (ps : List (Plugin V)) (v0 : V)
    (rt : Option RequestType) : V :=
  runHooks rt (sortPlugins (ps.filter (fun p => p.enabled))) v0

/-- Names of the plugins whose hooks actually run, in execution order. -/
def executionOrder {V : Type} (ps : List (Plugin V))
    (rt : Option RequestType) : List String :=
  ((sortPlugins (ps.filter (fun p => p.enabled))).filter
    (fun p => pluginRuns p rt)).map (fun p => p.name)

/-! Concrete fixtures used by the scenario halves of the claims. -/

/-- A half-open breaker with a one-success threshold and ten failure
timestamps still inside the monitoring window. -/
def cbHalfOpenFix : CircuitBreaker :=
  { state := .halfOpen
    failureCount := 3
    successCount := 0
    totalRequests := 3
    lastFailureTime := some 900
    requestTimestamps := [1000, 1000, 1000]
    failureThreshold := mkRat 1 2
    successThreshold := 1
    resetTimeout := 60000
    monitoringPeriod := 10000 }

/-- An open breaker whose reset timeout has long elapsed at time 100. -/
def cbOpenFix : CircuitBreaker :=
  { state := .opened
    failureCount := 10
    successCount := 0
    totalRequests := 10
    lastFailureTime := some 1
    requestTimestamps := []
    failureThreshold := mkRat 1 2
    successThreshold := 5
    resetTimeout := 10
    monitoringPeriod := 10000 }

/-- `cbOpenFix` after the `OPEN → HALF_OPEN` transition of `allow`. -/
def cbHalfFix : CircuitBreaker := { cbOpenFix with state := .halfOpen }

/-- The api-version rewrite context of the spec's router example. -/
def ctxApiFix : RequestContext := { url := "/api/v1/users", metadata := none }

/-- The api-version rewrite rule: regex pattern `/api/v1/(.*)`, string
target `/api/v2/$1`. -/
def ruleApiFix : RouteRule :=
  { name := "api"
    pattern := .regex (.cat (.lit "/api/v1/".data) (.grp .anyStar))
    target := .str "/api/v2/$1"
    enabled := true
    condition := none
    type := "rewrite" }

/-- An enabled, healthy server of weight 1. -/
def srvFix (n : String) : BackendServer :=
  { url := n, weight := 1, enabled := true, healthy := true }

/-- A fresh round-robin balancer over servers `A`, `B`, `C`. -/
def lbABCFix : LoadBalancer :=
  { servers := [srvFix "A", srvFix "B", srvFix "C"]
    strategy := .roundRobin
    currentIndex := 0
    connectionCounts := []
    responseTimes := [] }

/-- An enabled list-tagging plugin with the given priority and tag. -/
def plTagFix (nm : String) (pr : Int) (tag : Nat) : Plugin (List Nat) :=
  { name := nm
    priority := some pr
    enabled := true
    requestTypes := []
    hook := some (fun v => some (v ++ [tag])) }

def p10Fix : Plugin (List Nat) := plTagFix "p10" 10 10

def p20Fix : Plugin (List Nat) := plTagFix "p20" 20 20

/-- An enabled priority-15 plugin whose hook returns nothing. -/
def p15NoneFix : Plugin (List Nat) :=
  { name := "p15"
    priority := some 15
    enabled := true
    requestTypes := []
    hook := some (fun _ => none) }

/-- An enabled hook-defining plugin restricted to XHR requests. -/
def pXhrOnlyFix : Plugin Nat :=
  { name := "xhrOnly"
    priority := some 10
    enabled := true
    requestTypes := [.xhr]
    hook := some (fun v => some (v + 1)) }

/-- Fixed-window record one request away from its limit. -/
def recFWFix : RequestRecord :=
  { count := 1, resetTime := 20, timestamps := [], tokens := 0, lastRefill := 5 }

/-- Sliding-window record holding one in-window timestamp. -/
def recSWFix : RequestRecord :=
  { count := 1, resetTime := 20, timestamps := [5], tokens := 0, lastRefill := 5 }

/-- Token-bucket record with an empty bucket. -/
def recTBFix : RequestRecord :=
  { count := 0, resetTime := 20, timestamps := [], tokens := 0, lastRefill := 6 }

/-- Leaky-bucket record at its limit. -/
def recLBFix : RequestRecord :=
  { count := 1, resetTime := 20, timestamps := [], tokens := 0, lastRefill := 6 }

/-- A default-config breaker that has already seen nine windowed
failures. -/
def cbNineFailFix : CircuitBreaker :=
  { state := .closed
    failureCount := 9
    successCount := 0
    totalRequests := 9
    lastFailureTime := some 1000
    requestTimestamps := [1000, 1000, 1000, 1000, 1000, 1000, 1000, 1000, 1000]
    failureThreshold := mkRat 1 2
    successThreshold := 5
    resetTimeout := 60000
    monitoringPeriod := 10000 }

/-- A disabled catch-all rule, used to show skipped rules do not win. -/
def ruleOffFix : RouteRule :=
  { name := "off"
    pattern := .str "*"
    target := .str "/nowhere"
    enabled := false
    condition := none
    type := "rewrite" }

/-- The route match produced by `ruleApiFix` on `ctxApiFix`. -/
def matchApiFix : RouteMatch :=
  { rule := ruleApiFix
    targetUrl := "/api/v2/users"
    matchArr := ["/api/v1/users".data, "users".data] }

/-! Helper lemmas about the circuit breaker. -/

lemma cleanOldRequests_state (cb : CircuitBreaker) (now : Int) :
    (cleanOldRequests cb now).state = cb.state := by
  simp only [cleanOldRequests]
  split <;> rfl

lemma cleanOldRequests_successCount (cb : CircuitBreaker) (now : Int) :
    (cleanOldRequests cb now).successCount = cb.successCount := by
  simp only [cleanOldRequests]
  split <;> rfl

lemma cleanOldRequests_successThreshold (cb : CircuitBreaker) (now : Int) :
    (cleanOldRequests cb now).successThreshold = cb.successThreshold := by
  simp only [cleanOldRequests]
  split <;> rfl

lemma onSuccess_halfOpen_stay (cb : CircuitBreaker) (now : Int)
    (h : cb.state = .halfOpen)
    (hlt : cb.successCount + 1 < cb.successThreshold) :
    (onSuccess cb now).state = .halfOpen
    ∧ (onSuccess cb now).successCount = cb.successCount + 1
    ∧ (onSuccess cb now).successThreshold = cb.successThreshold := by
  simp only [onSuccess, cleanOldRequests_state, cleanOldRequests_successCount,
    cleanOldRequests_successThreshold, h, if_pos]
  have : ¬ cb.successThreshold ≤ cb.successCount + 1 := by omega
  simp [this, cleanOldRequests_state, cleanOldRequests_successCount,
    cleanOldRequests_successThreshold, h]

lemma onSuccess_halfOpen_close (cb : CircuitBreaker) (now : Int)
    (h : cb.state = .halfOpen)
    (hge : cb.successThreshold ≤ cb.successCount + 1) :
    (onSuccess cb now).state = .closed
    ∧ (onSuccess cb now).failureCount = 0
    ∧ (onSuccess cb now).successCount = 0 := by
  simp only [onSuccess, cleanOldRequests_state, cleanOldRequests_successCount,
    cleanOldRequests_successThreshold, h, if_pos]
  simp [cleanOldRequests_state, cleanOldRequests_successCount,
    cleanOldRequests_successThreshold, h, hge]

lemma onSuccessIter_halfOpen (now : Int) (k : Nat) :
    ∀ cb : CircuitBreaker, cb.state = .halfOpen →
      cb.successCount + (k + 1) = cb.successThreshold →
      (onSuccessIter now (k + 1) cb).state = .closed
      ∧ (onSuccessIter now (k + 1) cb).failureCount = 0
      ∧ (onSuccessIter now (k + 1) cb).successCount = 0 := by
  induction k with
  | zero =>
    intro cb h hsum
    have hge : cb.successThreshold ≤ cb.successCount + 1 := by omega
    simpa only [onSuccessIter] using onSuccess_halfOpen_close cb now h hge
  | succ k ih =>
    intro cb h hsum
    have hlt : cb.successCount + 1 < cb.successThreshold := by omega
    obtain ⟨h1, h2, h3⟩ := onSuccess_halfOpen_stay cb now h hlt
    have : onSuccessIter now (k + 1 + 1) cb
        = onSuccessIter now (k + 1) (onSuccess cb now) := rfl
    rw [this]
    exact ih (onSuccess cb now) h1 (by omega)

/-! Theorems settling the claims. -/

/-- The `mkRat`-based counter quotient is ordinary rational division. -/
lemma ratio_eq_div (a b : Nat) : ratio a b = (a : ℚ) / (b : ℚ) := by
  simp [ratio, Rat.mkRat_eq_div]

/-- Claim C1 (amended): a fresh default breaker
(`failureThreshold = 0.5`) opens after a sequence of 10 calls all of
which fail inside one monitoring window; in general, a failure recorded
in `CLOSED` opens the breaker exactly when `failures/total` reaches
`failureThreshold` with `total ≥ 10`, where `total` is clamped to the
number of failure timestamps surviving the `monitoringPeriod` window
(successes leave no timestamps) and `failures` is clamped to `total`. -/
theorem c1_failure_opens :
    (runCalls defaultBreaker
        (List.replicate 10 ((1000 : Int), false))).state
      = CircuitState.opened
    ∧ ∀ (cb : CircuitBreaker) (now : Int), cb.state = .closed →
        cb.failureCount ≤ cb.totalRequests →
        ((onFailure cb now).state = CircuitState.opened ↔
          (cb.failureThreshold ≤
              (((min (cb.failureCount + 1)
                  (min (cb.totalRequests + 1) (survivors cb now).length) : ℕ) : ℚ)
                / ((min (cb.totalRequests + 1)
                    (survivors cb now).length : ℕ) : ℚ))
            ∧ 10 ≤ min (cb.totalRequests + 1) (survivors cb now).length)) := by
  constructor
  · decide
  · intro cb now hst hle
    have hsurv : survivors cb now
        = (cb.requestTimestamps ++ [now]).filter
            (fun t => now - cb.monitoringPeriod < t) := rfl
    simp only [onFailure, cleanOldRequests, ← hsurv]
    by_cases hcl : (survivors cb now).length < cb.totalRequests + 1
    · have htot : min (cb.totalRequests + 1) (survivors cb now).length
          = (survivors cb now).length := by omega
      simp only [if_pos hcl, htot, hst, ratio_eq_div]
      rw [if_neg (show ¬(CircuitState.closed = CircuitState.halfOpen) by decide)]
      split
      · rename_i hcond
        exact iff_of_true rfl hcond
      · rename_i hcond
        exact iff_of_false (by simp) hcond
    · have htot : min (cb.totalRequests + 1) (survivors cb now).length
          = cb.totalRequests + 1 := by omega
      have hfl : min (cb.failureCount + 1) (cb.totalRequests + 1)
          = cb.failureCount + 1 := by omega
      simp only [if_neg hcl, htot, hfl, hst, ratio_eq_div]
      rw [if_neg (show ¬(CircuitState.closed = CircuitState.halfOpen) by decide)]
      split
      · rename_i hcond
        exact iff_of_true rfl hcond
      · rename_i hcond
        exact iff_of_false (by simp) hcond

/-- Claim C1 witness: the general clause applied to a breaker with nine
windowed failures: the tenth failure opens it. -/
theorem c1_failure_opens_witness :
    (onFailure cbNineFailFix 1000).state = CircuitState.opened :=
  (c1_failure_opens.2 cbNineFailFix 1000 (by decide) (by decide)).mpr
    (by
      constructor
      · norm_num [cbNineFailFix, survivors, Rat.mkRat_eq_div]
      · decide)

/-- Claim C1 counterexample: ten `allow` calls through a fresh default
breaker (`failureThreshold = 0.5`) of which the first five fail and the
last five succeed, all inside one monitoring window, leave the breaker
`CLOSED`, not `OPEN`. -/
theorem c1_counterexample :
    (runCalls defaultBreaker
        (List.replicate 5 ((1000 : Int), false) ++
          List.replicate 5 ((1000 : Int), true))).state = CircuitState.closed
    ∧ (runCalls defaultBreaker
        (List.replicate 5 ((1000 : Int), false) ++
          List.replicate 5 ((1000 : Int), true))).state
        ≠ CircuitState.opened := by
  constructor <;> decide

/-- Claim C2 counterexample: an eligible `OPEN` breaker admits the trial
call and moves to `HALF_OPEN`, but a second call arriving while the
breaker is still `HALF_OPEN` with that trial outstanding is admitted as
well — the code does not limit `HALF_OPEN` to a single trial. -/
theorem c2_counterexample :
    admitPhase cbOpenFix 100 = .admitted cbHalfFix
    ∧ admitPhase cbHalfFix 100 = .admitted cbHalfFix := by
  constructor <;> decide

/-- Claim C2 (amended): in `OPEN`, a call before `resetTimeout` has
elapsed since `lastFailureTime` is rejected and the operation is never
invoked; once `resetTimeout` has elapsed the breaker moves to
`HALF_OPEN` and the call is admitted; and any further call while the
breaker is `HALF_OPEN` is also admitted (the code does not restrict
`HALF_OPEN` to one outstanding trial). -/
theorem c2_open_admission :
    (∀ (cb : CircuitBreaker) (now t : Int), cb.state = .opened →
      cb.lastFailureTime = some t → now - t < cb.resetTimeout →
      admitPhase cb now = .rejected ∧ ∀ ok, allowCall cb now ok = none)
    ∧ (∀ (cb : CircuitBreaker) (now t : Int), cb.state = .opened →
      cb.lastFailureTime = some t → 0 < t → cb.resetTimeout ≤ now - t →
      admitPhase cb now = .admitted { cb with state := .halfOpen })
    ∧ (∀ (cb : CircuitBreaker) (now : Int), cb.state = .halfOpen →
      admitPhase cb now = .admitted cb) := by
  refine ⟨?_, ?_, ?_⟩
  · intro cb now t hst hlf hlt
    have hres : shouldAttemptReset cb now = false := by
      simp only [shouldAttemptReset, hlf]
      split
      · rfl
      · simp only [decide_eq_false_iff_not]
        omega
    have hadm : admitPhase cb now = .rejected := by
      simp [admitPhase, hst, hres]
    exact ⟨hadm, fun ok => by simp [allowCall, hadm]⟩
  · intro cb now t hst hlf ht hge
    have hres : shouldAttemptReset cb now = true := by
      simp only [shouldAttemptReset, hlf]
      split
      · omega
      · simpa using hge
    simp [admitPhase, hst, hres]
  · intro cb now hst
    simp [admitPhase, hst]

/-- Claim C2 witness: the amended theorem applied to `cbOpenFix` at a
time before, and a time after, its reset timeout. -/
theorem c2_open_admission_witness :
    admitPhase cbOpenFix 5 = .rejected
    ∧ admitPhase cbOpenFix 100 = .admitted { cbOpenFix with state := .halfOpen }
    ∧ admitPhase cbHalfFix 100 = .admitted cbHalfFix :=
  ⟨(c2_open_admission.1 cbOpenFix 5 1 (by decide) (by decide) (by decide)).1,
    c2_open_admission.2.1 cbOpenFix 100 1 (by decide) (by decide) (by decide)
      (by decide),
    c2_open_admission.2.2 cbHalfFix 100 (by decide)⟩

/-- Claim C3 counterexample: a success closing `cbHalfOpenFix`
(`successThreshold = 1`) leaves `totalRequests = 3`, so not every
counter is reset to zero on the `HALF_OPEN → CLOSED` transition. -/
theorem c3_counterexample :
    (onSuccess cbHalfOpenFix 1000).state = CircuitState.closed
    ∧ (onSuccess cbHalfOpenFix 1000).totalRequests ≠ 0 := by
  constructor <;> decide

/-- Claim C3 (amended): from `HALF_OPEN` with a zeroed success counter,
`successThreshold` consecutive successful calls close the breaker and
reset the failure and success counters to zero (the total request
count is not reset); and any single failure while `HALF_OPEN`
immediately reopens the breaker. -/
theorem c3_half_open_behaviour :
    (∀ (cb : CircuitBreaker) (now : Int) (n : Nat), cb.state = .halfOpen →
      cb.successCount = 0 → n = cb.successThreshold → 1 ≤ n →
      (onSuccessIter now n cb).state = .closed
      ∧ (onSuccessIter now n cb).failureCount = 0
      ∧ (onSuccessIter now n cb).successCount = 0)
    ∧ (∀ (cb : CircuitBreaker) (now : Int), cb.state = .halfOpen →
      (onFailure cb now).state = .opened
      ∧ (onFailure cb now).successCount = 0) := by
  constructor
  · intro cb now n hst hsc hn h1
    obtain ⟨k, rfl⟩ : ∃ k, n = k + 1 := ⟨n - 1, by omega⟩
    exact onSuccessIter_halfOpen now k cb hst (by omega)
  · intro cb now hst
    have h1 : (cleanOldRequests
        { cb with
            totalRequests := cb.totalRequests + 1
            failureCount := cb.failureCount + 1
            lastFailureTime := some now
            requestTimestamps := cb.requestTimestamps ++ [now] } now).state
        = CircuitState.halfOpen := by
      rw [cleanOldRequests_state]
      exact hst
    constructor <;> simp [onFailure, h1]

/-- Claim C3 witness: the amended theorem applied to `cbHalfOpenFix`,
whose success threshold is one. -/
theorem c3_half_open_behaviour_witness :
    ((onSuccessIter 1000 1 cbHalfOpenFix).state = CircuitState.closed
      ∧ (onSuccessIter 1000 1 cbHalfOpenFix).failureCount = 0
      ∧ (onSuccessIter 1000 1 cbHalfOpenFix).successCount = 0)
    ∧ (onFailure cbHalfOpenFix 1000).state = CircuitState.opened :=
  ⟨c3_half_open_behaviour.1 cbHalfOpenFix 1000 1 (by decide) (by decide)
      (by decide) (by decide),
    (c3_half_open_behaviour.2 cbHalfOpenFix 1000 (by decide)).1⟩

/-- Claim C4 counterexample: `pXhrOnlyFix` is enabled and defines the
hook, yet an `executeHook` invocation whose primary argument carries the
FETCH request type skips it entirely (the running value stays `0`
although the hook would have produced `1`, as the XHR invocation
shows). -/
theorem c4_counterexample :
    executeHook [pXhrOnlyFix] (0 : Nat) (some RequestType.fetch) = 0
    ∧ pXhrOnlyFix.enabled = true
    ∧ pXhrOnlyFix.hook.isSome = true
    ∧ executeHook [pXhrOnlyFix] (0 : Nat) (some RequestType.xhr) = 1 :=
  ⟨rfl, rfl, rfl, rfl⟩

/-- Repeated token-bucket calls at the bucket's own refill instant: no
time passes, so each admitted call just decrements the token count. -/
lemma tbIter_run (m : Nat) (w t0 rt : ℚ) (ht : t0 ≠ 0) :
    ∀ (k : Nat) (x : ℚ), (k : ℚ) ≤ x → x ≤ (m : ℚ) →
      tbIter w (m : ℚ) t0 k (tbState rt t0 x)
        = tbState rt t0 (x - (k : ℚ)) := by
  intro k
  induction k with
  | zero =>
    intro x _ _
    simp [tbIter]
  | succ k ih =>
    intro x hkx hxm
    have hk0 : (0 : ℚ) ≤ (k : ℚ) := Nat.cast_nonneg k
    have hk1 : (k : ℚ) + 1 ≤ x := by
      have h := hkx
      push_cast at h
      linarith
    have hstep : (tokenBucket w (m : ℚ) (tbState rt t0 x) t0).2
        = tbState rt t0 (x - 1) := by
      simp only [tokenBucket, tbState, if_neg ht, sub_self, zero_div,
        zero_mul, add_zero, min_eq_right hxm]
      rw [if_neg (show ¬ (x < 1) by linarith)]
    rw [show tbIter w (m : ℚ) t0 (k + 1) (tbState rt t0 x)
        = tbIter w (m : ℚ) t0 k
          (tokenBucket w (m : ℚ) (tbState rt t0 x) t0).2 from rfl,
      hstep, ih (x - 1) (by linarith) (by linarith)]
    congr 1
    push_cast
    ring

/-- Claim C5: a token-bucket key starts with a full bucket: `max`
immediate calls are all admitted, the `(max+1)`-th immediate call is
denied, and after waiting exactly `windowMs/max` past the last refill
exactly one further request is admitted while the next immediate one is
denied again. -/
theorem c5_token_bucket (m : Nat) (w t0 : ℚ) (hm : 1 ≤ m) (hw : 0 < w)
    (ht : 0 < t0) :
    (∀ k, k < m →
      (tokenBucket w (m : ℚ)
        (tbIter w (m : ℚ) t0 k (createRecord t0 w (m : ℚ))) t0).1 = true)
    ∧ (tokenBucket w (m : ℚ)
        (tbIter w (m : ℚ) t0 m (createRecord t0 w (m : ℚ))) t0).1 = false
    ∧ (tokenBucket w (m : ℚ)
        (tokenBucket w (m : ℚ)
          (tbIter w (m : ℚ) t0 m (createRecord t0 w (m : ℚ))) t0).2
        (t0 + w / m)).1 = true
    ∧ (tokenBucket w (m : ℚ)
        (tokenBucket w (m : ℚ)
          (tokenBucket w (m : ℚ)
            (tbIter w (m : ℚ) t0 m (createRecord t0 w (m : ℚ))) t0).2
          (t0 + w / m)).2
        (t0 + w / m)).1 = false := by
  have ht0 : t0 ≠ 0 := ne_of_gt ht
  have hw0 : w ≠ 0 := ne_of_gt hw
  have hmq : (1 : ℚ) ≤ (m : ℚ) := by exact_mod_cast hm
  have hm0 : (m : ℚ) ≠ 0 := by linarith
  have hr0 : createRecord t0 w (m : ℚ) = tbState (t0 + w) t0 (m : ℚ) := rfl
  have ht1 : t0 + w / m ≠ 0 := by positivity
  have hm0' : (0 : ℚ) ≤ (m : ℚ) := by linarith
  have hden : tokenBucket w (m : ℚ)
      (tbIter w (m : ℚ) t0 m (createRecord t0 w (m : ℚ))) t0
      = (false, tbState (t0 + w) t0 0) := by
    rw [hr0, tbIter_run m w t0 (t0 + w) ht0 m (m : ℚ) le_rfl le_rfl,
      sub_self]
    simp only [tokenBucket, tbState, if_neg ht0, sub_self, zero_div,
      zero_mul, add_zero, min_eq_right hm0']
    rw [if_pos (by norm_num : (0 : ℚ) < 1)]
  have hone : (0 : ℚ) + (t0 + w / m - t0) / w * m = 1 := by
    field_simp
    ring
  have hadm : tokenBucket w (m : ℚ) (tbState (t0 + w) t0 0) (t0 + w / m)
      = (true, tbState (t0 + w) (t0 + w / m) 0) := by
    simp only [tokenBucket, tbState, if_neg ht0]
    rw [show min (m : ℚ) ((0 : ℚ) + (t0 + w / m - t0) / w * m) = 1 by
      rw [hone]; exact min_eq_right hmq]
    rw [if_neg (by norm_num : ¬ ((1 : ℚ) < 1))]
    norm_num
  refine ⟨?_, ?_, ?_, ?_⟩
  · intro k hk
    have hkq : (k : ℚ) ≤ (m : ℚ) := by
      exact_mod_cast le_of_lt hk
    have hk1 : (k : ℚ) + 1 ≤ (m : ℚ) := by exact_mod_cast hk
    have hk0 : (0 : ℚ) ≤ (k : ℚ) := Nat.cast_nonneg k
    rw [hr0, tbIter_run m w t0 (t0 + w) ht0 k (m : ℚ) hkq le_rfl]
    simp only [tokenBucket, tbState, if_neg ht0, sub_self, zero_div,
      zero_mul, add_zero,
      min_eq_right (show (m : ℚ) - k ≤ (m : ℚ) by linarith)]
    rw [if_neg (show ¬ ((m : ℚ) - k < 1) by linarith)]
  · rw [hden]
  · rw [hden, show ((false, tbState (t0 + w) t0 0) :
          Bool × RequestRecord).2
        = tbState (t0 + w) t0 0 from rfl, hadm]
  · rw [hden, show ((false, tbState (t0 + w) t0 0) :
          Bool × RequestRecord).2
        = tbState (t0 + w) t0 0 from rfl, hadm,
      show ((true, tbState (t0 + w) (t0 + w / m) 0) :
          Bool × RequestRecord).2
        = tbState (t0 + w) (t0 + w / m) 0 from rfl]
    simp only [tokenBucket, tbState, if_neg ht1, sub_self, zero_div,
      zero_mul, add_zero, min_eq_right hm0']
    rw [if_pos (by norm_num : (0 : ℚ) < 1)]

/-- Claim C5 witness: the theorem applied at capacity 2, window 60,
starting time 5: the second immediate call is admitted, the third is
denied. -/
theorem c5_token_bucket_witness :
    (tokenBucket 60 ((2 : ℕ) : ℚ)
      (tbIter 60 ((2 : ℕ) : ℚ) 5 1 (createRecord 5 60 ((2 : ℕ) : ℚ))) 5).1
      = true
    ∧ (tokenBucket 60 ((2 : ℕ) : ℚ)
        (tbIter 60 ((2 : ℕ) : ℚ) 5 2 (createRecord 5 60 ((2 : ℕ) : ℚ))) 5).1
        = false :=
  ⟨(c5_token_bucket 2 60 5 (by decide) (by norm_num) (by norm_num)).1 1
      (by decide),
    (c5_token_bucket 2 60 5 (by decide) (by norm_num) (by norm_num)).2.1⟩

/-- Claim C10: a denied `allowRequest` consumes no quota under any of
the four algorithms — the record after a denial equals the record after
the pure time-based decay (window reset, timestamp pruning, token
refill, leak) that every call performs, with no count increment, no
timestamp appended, no token decrement and no level increment. -/
theorem c10_denied_no_quota (w m : ℚ) (r : RequestRecord) (now : ℚ) :
    ((fixedWindow w m r now).1 = false →
      (fixedWindow w m r now).2 = fwDecay w r now)
    ∧ ((slidingWindow w m r now).1 = false →
      (slidingWindow w m r now).2 = swDecay w r now)
    ∧ ((tokenBucket w m r now).1 = false →
      (tokenBucket w m r now).2 = tbDecay w m r now)
    ∧ ((leakyBucket w m r now).1 = false →
      (leakyBucket w m r now).2 = lbDecay w m r now) := by
  refine ⟨?_, ?_, ?_, ?_⟩
  · intro h
    simp only [fixedWindow, fwDecay] at h ⊢
    split_ifs at h ⊢ <;> simp_all
  · intro h
    simp only [slidingWindow, swDecay] at h ⊢
    split_ifs at h ⊢ <;> simp_all
  · intro h
    simp only [tokenBucket, tbDecay] at h ⊢
    split_ifs at h ⊢ <;> simp_all
  · intro h
    simp only [leakyBucket, lbDecay] at h ⊢
    split_ifs at h ⊢ <;> simp_all

/-- Claim C10 witness: the theorem applied to concrete denied requests,
one per algorithm. -/
theorem c10_denied_no_quota_witness :
    ((fixedWindow 10 1 recFWFix 6).1 = false
      ∧ (fixedWindow 10 1 recFWFix 6).2 = fwDecay 10 recFWFix 6)
    ∧ ((slidingWindow 10 1 recSWFix 6).1 = false
      ∧ (slidingWindow 10 1 recSWFix 6).2 = swDecay 10 recSWFix 6)
    ∧ ((tokenBucket 10 1 recTBFix 6).1 = false
      ∧ (tokenBucket 10 1 recTBFix 6).2 = tbDecay 10 1 recTBFix 6)
    ∧ ((leakyBucket 10 1 recLBFix 6).1 = false
      ∧ (leakyBucket 10 1 recLBFix 6).2 = lbDecay 10 1 recLBFix 6) := by
  have hf : (fixedWindow 10 1 recFWFix 6).1 = false := by
    norm_num [fixedWindow, recFWFix]
  have hs : (slidingWindow 10 1 recSWFix 6).1 = false := by
    norm_num [slidingWindow, recSWFix]
  have ht : (tokenBucket 10 1 recTBFix 6).1 = false := by
    norm_num [tokenBucket, recTBFix]
  have hl : (leakyBucket 10 1 recLBFix 6).1 = false := by
    norm_num [leakyBucket, recLBFix]
  exact ⟨⟨hf, (c10_denied_no_quota 10 1 recFWFix 6).1 hf⟩,
    ⟨hs, (c10_denied_no_quota 10 1 recSWFix 6).2.1 hs⟩,
    ⟨ht, (c10_denied_no_quota 10 1 recTBFix 6).2.2.1 ht⟩,
    ⟨hl, (c10_denied_no_quota 10 1 recLBFix 6).2.2.2 hl⟩⟩

/-! Helper lemmas about the load balancer. -/

lemma foldl_pick_mem {α : Type} (f : α → α → α)
    (hf : ∀ a b, f a b = a ∨ f a b = b) :
    ∀ (l : List α) (a : α), l.foldl f a ∈ a :: l := by
  intro l
  induction l with
  | nil =>
    intro a
    simp
  | cons x xs ih =>
    intro a
    simp only [List.foldl_cons]
    rcases List.mem_cons.mp (ih (f a x)) with h2 | h2
    · rw [h2]
      rcases hf a x with h1 | h1 <;> rw [h1] <;> simp
    · exact List.mem_cons.mpr (Or.inr (List.mem_cons.mpr (Or.inr h2)))

lemma weightedWalk_mem :
    ∀ (l : List BackendServer) (r : ℚ) (s : BackendServer),
      weightedWalk r l = some s → s ∈ l := by
  intro l
  induction l with
  | nil =>
    intro r s h
    simp [weightedWalk] at h
  | cons x xs ih =>
    intro r s h
    simp only [weightedWalk] at h
    split at h
    · exact List.mem_cons.mpr (Or.inl (by cases h; rfl))
    · exact List.mem_cons.mpr (Or.inr (ih _ s h))

lemma weightedRoundRobin_spec (l : List BackendServer) (rand : ℚ)
    (hl : l ≠ []) :
    ∃ s, weightedRoundRobin l rand = some s ∧ s ∈ l := by
  simp only [weightedRoundRobin]
  cases hw : weightedWalk
      (rand * l.foldl (fun acc s => acc + effWeight s) 0) l with
  | some s => exact ⟨s, rfl, weightedWalk_mem l _ s hw⟩
  | none =>
    cases l with
    | nil => exact absurd rfl hl
    | cons x xs => exact ⟨x, rfl, List.mem_cons.mpr (Or.inl rfl)⟩

/-- Claim C7: `getNextServer` returns the absent result exactly when no
server is both enabled and healthy, and any server it returns belongs to
the enabled-and-healthy subset, under every strategy (with the
`Math.random()` draw in `[0,1)`). -/
theorem c7_get_next_server (lb : LoadBalancer) (ctx : RequestContext)
    (rand : ℚ) (h0 : 0 ≤ rand) (h1 : rand < 1) :
    ((getNextServer lb ctx rand).1 = none ↔ getHealthyServers lb = [])
    ∧ ∀ s, (getNextServer lb ctx rand).1 = some s →
        s ∈ lb.servers ∧ s.enabled = true ∧ s.healthy = true := by
  by_cases hA : (getHealthyServers lb).length = 0
  · have hnil : getHealthyServers lb = [] := List.length_eq_zero.mp hA
    constructor
    · simp [getNextServer, hA, hnil]
    · intro s hs
      simp [getNextServer, hA] at hs
  · have hpos : 0 < (getHealthyServers lb).length := Nat.pos_of_ne_zero hA
    have hne : getHealthyServers lb ≠ [] := by
      intro hcon
      rw [hcon] at hA
      exact hA rfl
    have hex : ∃ s, (getNextServer lb ctx rand).1 = some s
        ∧ s ∈ getHealthyServers lb := by
      cases hstrat : lb.strategy with
      | roundRobin =>
        simp only [getNextServer, hstrat, if_neg hA]
        have hlt : lb.currentIndex % (getHealthyServers lb).length
            < (getHealthyServers lb).length := Nat.mod_lt _ hpos
        cases hget : (getHealthyServers lb).get?
            (lb.currentIndex % (getHealthyServers lb).length) with
        | none =>
          rw [List.get?_eq_none] at hget
          omega
        | some s => exact ⟨s, rfl, List.get?_mem hget⟩
      | weightedRoundRobin =>
        obtain ⟨s, hs, hmem⟩ :=
          weightedRoundRobin_spec (getHealthyServers lb) rand hne
        exact ⟨s, by simp only [getNextServer, hstrat, if_neg hA, hs], hmem⟩
      | leastConnections =>
        cases hL : getHealthyServers lb with
        | nil => exact absurd hL hne
        | cons x rest =>
          refine ⟨rest.foldl
            (fun m s => if connCount lb s.url < connCount lb m.url
              then s else m) x, ?_, ?_⟩
          · simp only [getNextServer, hstrat, if_neg hA,
              leastConnections]
            rw [hL]
          · refine foldl_pick_mem _ (fun a b => ?_) rest x
            dsimp only
            split
            · exact Or.inr rfl
            · exact Or.inl rfl
      | ipHash =>
        simp only [getNextServer, hstrat, if_neg hA, ipHash]
        have hlt : (hashCode ((ctx.metadata.bind
              (fun m => m.lookup "clientIp")).getD ctx.url)).natAbs
            % (getHealthyServers lb).length
            < (getHealthyServers lb).length := Nat.mod_lt _ hpos
        cases hget : (getHealthyServers lb).get?
            ((hashCode ((ctx.metadata.bind
              (fun m => m.lookup "clientIp")).getD ctx.url)).natAbs
              % (getHealthyServers lb).length) with
        | none =>
          rw [List.get?_eq_none] at hget
          omega
        | some s => exact ⟨s, rfl, List.get?_mem hget⟩
      | random =>
        simp only [getNextServer, hstrat, if_neg hA, randomPick]
        have hlen : (0 : ℚ) < ((getHealthyServers lb).length : ℚ) := by
          exact_mod_cast hpos
        have hflt : ⌊rand * ((getHealthyServers lb).length : ℚ)⌋
            < ((getHealthyServers lb).length : ℤ) := by
          rw [Int.floor_lt]
          push_cast
          calc rand * ((getHealthyServers lb).length : ℚ)
              < 1 * ((getHealthyServers lb).length : ℚ) := by
                exact mul_lt_mul_of_pos_right h1 hlen
            _ = ((getHealthyServers lb).length : ℚ) := one_mul _
        have hfnn : 0 ≤ ⌊rand * ((getHealthyServers lb).length : ℚ)⌋ :=
          Int.floor_nonneg.mpr (by positivity)
        have hlt : (⌊rand * ((getHealthyServers lb).length : ℚ)⌋).toNat
            < (getHealthyServers lb).length := by omega
        cases hget : (getHealthyServers lb).get?
            (⌊rand * ((getHealthyServers lb).length : ℚ)⌋).toNat with
        | none =>
          rw [List.get?_eq_none] at hget
          omega
        | some s => exact ⟨s, rfl, List.get?_mem hget⟩
      | fastest =>
        cases hL : getHealthyServers lb with
        | nil => exact absurd hL hne
        | cons x rest =>
          refine ⟨rest.foldl
            (fun m s => if avgLt (avgResponseTime lb s.url)
                (avgResponseTime lb m.url) = true
              then s else m) x, ?_, ?_⟩
          · simp only [getNextServer, hstrat, if_neg hA, fastest]
            rw [hL]
          · refine foldl_pick_mem _ (fun a b => ?_) rest x
            dsimp only
            split
            · exact Or.inr rfl
            · exact Or.inl rfl
    obtain ⟨s0, hs0, hmem0⟩ := hex
    constructor
    · rw [hs0]
      constructor
      · intro h
        exact absurd h (by simp)
      · intro h
        exact absurd h hne
    · intro s hs
      rw [hs0] at hs
      cases hs
      have := List.mem_filter.mp hmem0
      refine ⟨this.1, ?_, ?_⟩
      · have hb := this.2
        simp only [Bool.and_eq_true] at hb
        exact hb.1
      · have hb := this.2
        simp only [Bool.and_eq_true] at hb
        exact hb.2

/-- Claim C7 witness: the theorem applied to the three-server fixture
with draw 0: the pick is never absent and server `A` is returned from
the enabled-and-healthy subset. -/
theorem c7_get_next_server_witness :
    ((getNextServer lbABCFix { url := "u", metadata := none } 0).1 = none
      ↔ getHealthyServers lbABCFix = [])
    ∧ (srvFix "A" ∈ lbABCFix.servers ∧ (srvFix "A").enabled = true
        ∧ (srvFix "A").healthy = true) :=
  ⟨(c7_get_next_server lbABCFix { url := "u", metadata := none } 0
      (by norm_num) (by norm_num)).1,
    (c7_get_next_server lbABCFix { url := "u", metadata := none } 0
      (by norm_num) (by norm_num)).2 (srvFix "A") (by decide)⟩

/-- Claim C8: under round robin the selection index advances by one per
call and the pick is the filtered list at the old index modulo the
filtered count; with fresh balancer state over servers `A`, `B`, `C`,
four consecutive calls return `A`, `B`, `C`, `A`. -/
theorem c8_round_robin :
    (∀ (lb : LoadBalancer) (ctx : RequestContext) (rand : ℚ),
      lb.strategy = .roundRobin → getHealthyServers lb ≠ [] →
      (getNextServer lb ctx rand).1
          = (getHealthyServers lb).get?
            (lb.currentIndex % (getHealthyServers lb).length)
        ∧ (getNextServer lb ctx rand).2.currentIndex
          = lb.currentIndex + 1)
    ∧ runPicks { url := "u", metadata := none } 0 4 lbABCFix
        = [some (srvFix "A"), some (srvFix "B"), some (srvFix "C"),
            some (srvFix "A")] := by
  constructor
  · intro lb ctx rand hstrat hne
    have hA : ¬ (getHealthyServers lb).length = 0 := by
      intro h
      exact hne (List.length_eq_zero.mp h)
    constructor <;> simp only [getNextServer, hstrat, if_neg hA]
  · decide

/-- Claim C8 witness: the general clause applied to the fresh
three-server fixture. -/
theorem c8_round_robin_witness :
    (getNextServer lbABCFix { url := "u", metadata := none } 0).1
        = (getHealthyServers lbABCFix).get?
          (lbABCFix.currentIndex % (getHealthyServers lbABCFix).length)
    ∧ (getNextServer lbABCFix
        { url := "u", metadata := none } 0).2.currentIndex
      = lbABCFix.currentIndex + 1 :=
  c8_round_robin.1 lbABCFix { url := "u", metadata := none } 0 rfl
    (by decide)

/-! Helper lemmas about the metadata bag. -/

lemma getKV_map_replace (k v k' : String) (hne : k' ≠ k) :
    ∀ m : List (String × String),
      getKV (m.map (fun p => if p.1 = k then (k, v) else p)) k'
        = getKV m k' := by
  intro m
  induction m with
  | nil => rfl
  | cons p rest ih =>
    simp only [List.map_cons, getKV]
    by_cases hp : p.1 = k
    · rw [if_pos hp]
      rw [if_neg (show ¬ (((k, v) : String × String).1 = k') from
          fun hc => hne hc.symm),
        if_neg (show ¬ (p.1 = k') from
          fun hc => hne (hp.symm.trans hc).symm)]
      exact ih
    · rw [if_neg hp]
      by_cases hk : p.1 = k'
      · rw [if_pos hk, if_pos hk]
      · rw [if_neg hk, if_neg hk]
        exact ih

lemma getKV_map_replace_self (k v : String) :
    ∀ m : List (String × String), m.any (fun p => p.1 = k) = true →
      getKV (m.map (fun p => if p.1 = k then (k, v) else p)) k
        = some v := by
  intro m
  induction m with
  | nil =>
    intro h
    simp at h
  | cons p rest ih =>
    intro h
    rw [List.any_cons, Bool.or_eq_true] at h
    simp only [List.map_cons, getKV]
    by_cases hp : p.1 = k
    · rw [if_pos hp,
        if_pos (show ((k, v) : String × String).1 = k from rfl)]
    · have hrest : rest.any (fun p => p.1 = k) = true := by
        rcases h with h | h
        · exact absurd (of_decide_eq_true h) hp
        · exact h
      rw [if_neg hp, if_neg hp]
      exact ih hrest

lemma getKV_append_single_self (k v : String) :
    ∀ m : List (String × String), m.any (fun p => p.1 = k) = false →
      getKV (m ++ [(k, v)]) k = some v := by
  intro m
  induction m with
  | nil =>
    intro _
    simp [getKV]
  | cons p rest ih =>
    intro h
    rw [List.any_cons, Bool.or_eq_false_iff] at h
    have hp : ¬ (p.1 = k) := by simpa using h.1
    simp only [List.cons_append, getKV]
    rw [if_neg hp]
    exact ih h.2

lemma getKV_append_single_ne (k v k' : String) (hne : k' ≠ k) :
    ∀ m : List (String × String),
      getKV (m ++ [(k, v)]) k' = getKV m k' := by
  intro m
  induction m with
  | nil =>
    simp only [List.nil_append, getKV]
    rw [if_neg (show ¬ (((k, v) : String × String).1 = k') from
      fun hc => hne hc.symm)]
  | cons p rest ih =>
    simp only [List.cons_append, getKV]
    by_cases hk : p.1 = k'
    · rw [if_pos hk, if_pos hk]
    · rw [if_neg hk, if_neg hk]
      exact ih

lemma getKV_setKV_self (m : List (String × String)) (k v : String) :
    getKV (setKV m k v) k = some v := by
  by_cases h : m.any (fun p => p.1 = k) = true
  · simp only [setKV, if_pos h]
    exact getKV_map_replace_self k v m h
  · simp only [setKV, if_neg h]
    refine getKV_append_single_self k v m ?_
    cases hb : m.any (fun p => p.1 = k)
    · rfl
    · exact absurd hb h

lemma getKV_setKV_ne (m : List (String × String)) (k v k' : String)
    (hne : k' ≠ k) :
    getKV (setKV m k v) k' = getKV m k' := by
  by_cases h : m.any (fun p => p.1 = k) = true
  · simp only [setKV, if_pos h]
    exact getKV_map_replace k v k' hne m
  · simp only [setKV, if_neg h]
    exact getKV_append_single_ne k v k' hne m

/-- Claim C9: when a rule matches, `route` records the prior URL under
`metadata.originalUrl` and the winning rule's name and type under
`metadata.routeRule` and `metadata.routeType`, then overwrites the URL
with the resolved target; when no rule matches, the context is returned
unchanged. -/
theorem c9_route (rules : List RouteRule) (ctx : RequestContext) :
    (∀ m, routerMatch ctx rules = some m →
      (route rules ctx).url = m.targetUrl
      ∧ getKV ((route rules ctx).metadata.getD []) "originalUrl"
          = some ctx.url
      ∧ getKV ((route rules ctx).metadata.getD []) "routeRule"
          = some m.rule.name
      ∧ getKV ((route rules ctx).metadata.getD []) "routeType"
          = some m.rule.type)
    ∧ (routerMatch ctx rules = none → route rules ctx = ctx) := by
  constructor
  · intro m hm
    have hroute : route rules ctx
        = { ctx with
            url := m.targetUrl
            metadata := some (setKV (setKV (setKV (ctx.metadata.getD [])
              "originalUrl" ctx.url) "routeRule" m.rule.name)
              "routeType" m.rule.type) } := by
      simp only [route, hm]
    rw [hroute]
    refine ⟨rfl, ?_, ?_, ?_⟩
    · rw [show ({ ctx with
            url := m.targetUrl
            metadata := some (setKV (setKV (setKV (ctx.metadata.getD [])
              "originalUrl" ctx.url) "routeRule" m.rule.name)
              "routeType" m.rule.type) } : RequestContext).metadata.getD []
          = setKV (setKV (setKV (ctx.metadata.getD [])
              "originalUrl" ctx.url) "routeRule" m.rule.name)
              "routeType" m.rule.type from rfl]
      rw [getKV_setKV_ne _ _ _ _ (by decide),
        getKV_setKV_ne _ _ _ _ (by decide), getKV_setKV_self]
    · rw [show ({ ctx with
            url := m.targetUrl
            metadata := some (setKV (setKV (setKV (ctx.metadata.getD [])
              "originalUrl" ctx.url) "routeRule" m.rule.name)
              "routeType" m.rule.type) } : RequestContext).metadata.getD []
          = setKV (setKV (setKV (ctx.metadata.getD [])
              "originalUrl" ctx.url) "routeRule" m.rule.name)
              "routeType" m.rule.type from rfl]
      rw [getKV_setKV_ne _ _ _ _ (by decide), getKV_setKV_self]
    · rw [show ({ ctx with
            url := m.targetUrl
            metadata := some (setKV (setKV (setKV (ctx.metadata.getD [])
              "originalUrl" ctx.url) "routeRule" m.rule.name)
              "routeType" m.rule.type) } : RequestContext).metadata.getD []
          = setKV (setKV (setKV (ctx.metadata.getD [])
              "originalUrl" ctx.url) "routeRule" m.rule.name)
              "routeType" m.rule.type from rfl]
      rw [getKV_setKV_self]
  · intro hm
    simp [route, hm]

/-- Claim C9 witness: the theorem applied to the api-rewrite fixture. -/
theorem c9_route_witness :
    (route [ruleApiFix] ctxApiFix).url = matchApiFix.targetUrl
    ∧ getKV ((route [ruleApiFix] ctxApiFix).metadata.getD [])
        "originalUrl" = some ctxApiFix.url
    ∧ getKV ((route [ruleApiFix] ctxApiFix).metadata.getD [])
        "routeRule" = some matchApiFix.rule.name :=
  ⟨((c9_route [ruleApiFix] ctxApiFix).1 matchApiFix rfl).1,
    ((c9_route [ruleApiFix] ctxApiFix).1 matchApiFix rfl).2.1,
    ((c9_route [ruleApiFix] ctxApiFix).1 matchApiFix rfl).2.2.1⟩

/-! Helper lemmas about the router's pattern matching. -/

lemma rxMatchFull_isSome_iff (r : Rx) (s : List Char) :
    (rxMatchFull r s).isSome = true
      ↔ ∃ t ∈ rxAll r s, t.2.2 = ([] : List Char) := by
  constructor
  · intro h
    cases hf : (rxAll r s).filter (fun t => t.2.2 = []) with
    | nil =>
      rw [rxMatchFull, hf] at h
      simp at h
    | cons a l =>
      have ha : a ∈ (rxAll r s).filter (fun t => t.2.2 = []) := by
        rw [hf]
        exact List.mem_cons_self a l
      have hm := List.mem_filter.mp ha
      exact ⟨a, hm.1, by simpa using hm.2⟩
  · rintro ⟨t, ht, hpr⟩
    have hmem : t ∈ (rxAll r s).filter (fun t => t.2.2 = []) :=
      List.mem_filter.mpr ⟨ht, by simpa using hpr⟩
    cases hf : (rxAll r s).filter (fun t => t.2.2 = []) with
    | nil =>
      rw [hf] at hmem
      simp at hmem
    | cons a l => simp [rxMatchFull, hf]

lemma rxAll_cat_ch_cons (c : Char) (R : Rx) (x : Char) (s' : List Char)
    (hx : x = c) :
    rxAll (.cat (.ch c) R) (x :: s')
      = (rxAll R s').map (fun u => (x :: u.1, u.2.1, u.2.2)) := by
  subst hx
  simp [rxAll]

lemma globLit_iff (p : List Char) (hp : ∀ c ∈ p, regexSpecial c = false) :
    ∀ s : List Char, ((rxMatchFull (globToRx p) s).isSome = true ↔ s = p) := by
  induction p with
  | nil =>
    intro s
    rw [rxMatchFull_isSome_iff]
    constructor
    · rintro ⟨t, ht, hrest⟩
      simp only [globToRx, rxAll, List.mem_singleton] at ht
      rw [ht] at hrest
      simpa using hrest
    · rintro rfl
      exact ⟨([], [], []), by simp [globToRx, rxAll], rfl⟩
  | cons c p' ih =>
    intro s
    have hc := hp c (List.mem_cons_self c p')
    have hstar : c ≠ '*' := by
      intro he
      rw [he] at hc
      exact absurd hc (by decide)
    have hq : c ≠ '?' := by
      intro he
      rw [he] at hc
      exact absurd hc (by decide)
    have hdot : c ≠ '.' := by
      intro he
      rw [he] at hc
      exact absurd hc (by decide)
    have hg : globToRx (c :: p') = .cat (.ch c) (globToRx p') := by
      rw [globToRx, if_neg hstar, if_neg hq, if_neg hdot]
    have ih' := ih (fun d hd => hp d (List.mem_cons.mpr (Or.inr hd)))
    rw [hg, rxMatchFull_isSome_iff]
    cases s with
    | nil => simp [rxAll]
    | cons x s' =>
      by_cases hx : x = c
      · constructor
        · rintro ⟨t, ht, hrest⟩
          rw [rxAll_cat_ch_cons c (globToRx p') x s' hx] at ht
          obtain ⟨u, hu, rfl⟩ := List.mem_map.mp ht
          have hs' : s' = p' := (ih' s').mp
            ((rxMatchFull_isSome_iff _ _).mpr ⟨u, hu, by simpa using hrest⟩)
          rw [hx, hs']
        · intro he
          injection he with h1 h2
          obtain ⟨u, hu, hrest⟩ :=
            (rxMatchFull_isSome_iff _ _).mp ((ih' s').mpr h2)
          refine ⟨(x :: u.1, u.2.1, u.2.2), ?_, by simpa using hrest⟩
          rw [rxAll_cat_ch_cons c (globToRx p') x s' h1]
          exact List.mem_map_of_mem _ hu
      · constructor
        · rintro ⟨t, ht, _⟩
          simp [rxAll, hx] at ht
        · intro he
          injection he with h1 _
          exact absurd h1 hx

lemma routerMatch_skip (ctx : RequestContext) (q : RouteRule)
    (rest : List RouteRule) (h : ruleApplies ctx q = false) :
    routerMatch ctx (q :: rest) = routerMatch ctx rest := by
  cases henb : q.enabled with
  | false => simp [routerMatch, henb]
  | true =>
    cases hcond : q.condition with
    | none =>
      have hnp : (matchPattern ctx.url.data q.pattern).isSome = false := by
        simpa [ruleApplies, henb, hcond] using h
      cases hmp : matchPattern ctx.url.data q.pattern with
      | some ms =>
        rw [hmp] at hnp
        simp at hnp
      | none => simp [routerMatch, henb, hcond, hmp]
    | some c =>
      cases hcv : c ctx with
      | false => simp [routerMatch, henb, hcond, hcv]
      | true =>
        have hnp : (matchPattern ctx.url.data q.pattern).isSome = false := by
          simpa [ruleApplies, henb, hcond, hcv] using h
        cases hmp : matchPattern ctx.url.data q.pattern with
        | some ms =>
          rw [hmp] at hnp
          simp at hnp
        | none => simp [routerMatch, henb, hcond, hcv, hmp]

lemma routerMatch_win (ctx : RequestContext) (r : RouteRule)
    (post : List RouteRule) (h : ruleApplies ctx r = true) :
    routerMatch ctx (r :: post) = routerMatch ctx [r]
      ∧ (routerMatch ctx [r]).isSome = true := by
  rw [ruleApplies, Bool.and_eq_true, Bool.and_eq_true] at h
  obtain ⟨⟨henb, hcond⟩, hmp⟩ := h
  obtain ⟨ms, hms⟩ := Option.isSome_iff_exists.mp hmp
  have hcond' : (match r.condition with
      | none => false
      | some c => !(c ctx)) = false := by
    cases hc : r.condition with
    | none => rfl
    | some c =>
      rw [hc] at hcond
      simpa using hcond
  constructor
  · simp [routerMatch, henb, hcond', hms]
  · simp [routerMatch, henb, hcond', hms]

/-- Claim C6: `match` walks the rules in registration order, skipping
disabled rules and rules whose condition rejects, and the first rule
whose pattern matches wins; a string pattern is compiled unescaped to
an anchored regular expression in which `*` matches any run and `?`
exactly one character (`/health*` matches `/health/check`; a pattern
free of every regex-special character matches only the identical URL,
while an unescaped `.` stays a live one-character wildcard, so `a.c`
matches `abc` but not `abbc`); a RegExp pattern is used directly and
unanchored (the literal regex `/abc/` matches inside `xx/abc/yy` where
the anchored string pattern does not); and `$n` placeholders in a
string target are replaced by the captured groups, rewriting
`/api/v1/users` to `/api/v2/users` under pattern `/api/v1/(.*)` with
target `/api/v2/$1`. -/
theorem c6_router_match :
    (∀ (pre : List RouteRule) (r : RouteRule) (post : List RouteRule)
        (ctx : RequestContext),
      (∀ q ∈ pre, ruleApplies ctx q = false) → ruleApplies ctx r = true →
      routerMatch ctx (pre ++ r :: post) = routerMatch ctx [r]
        ∧ (routerMatch ctx [r]).isSome = true)
    ∧ (∀ (p url : String), (∀ c ∈ p.data, regexSpecial c = false) →
        ((matchPattern url.data (.str p)).isSome = true ↔ url = p))
    ∧ (matchPattern "abc".data (.str "a.c")).isSome = true
    ∧ (matchPattern "abbc".data (.str "a.c")).isSome = false
    ∧ (matchPattern "xx/abc/yy".data (.regex (.lit "/abc/".data))).isSome
        = true
    ∧ (matchPattern "xx/abc/yy".data (.str "/abc/")).isSome = false
    ∧ (routerMatch ctxApiFix [ruleApiFix]).map (fun m => m.targetUrl)
        = some "/api/v2/users"
    ∧ (matchPattern "/health/check".data (.str "/health*")).isSome
        = true := by
  refine ⟨?_, ?_, by decide, by decide, by decide, by decide, by rfl,
    by decide⟩
  · intro pre r post ctx hpre hr
    induction pre with
    | nil => exact routerMatch_win ctx r post hr
    | cons q pre ih =>
      rw [List.cons_append,
        routerMatch_skip ctx q (pre ++ r :: post)
          (hpre q (List.mem_cons_self q pre))]
      exact ih (fun q1 hq1 => hpre q1 (List.mem_cons.mpr (Or.inr hq1)))
  · intro p url hglob
    rw [show matchPattern url.data (.str p)
        = rxMatchFull (globToRx p.data) url.data from rfl,
      globLit_iff p.data hglob url.data]
    exact ⟨fun h => String.ext h, fun h => by rw [h]⟩

/-- Claim C6 witness: the first-match clause applied to a chain with a
disabled leading rule, and the anchored-literal clause applied to the
pattern `/abc`. -/
theorem c6_router_match_witness :
    (routerMatch ctxApiFix ([ruleOffFix] ++ ruleApiFix :: [])
        = routerMatch ctxApiFix [ruleApiFix]
      ∧ (routerMatch ctxApiFix [ruleApiFix]).isSome = true)
    ∧ ((matchPattern "/abc".data (.str "/abc")).isSome = true
      ↔ ("/abc" : String) = "/abc") :=
  ⟨c6_router_match.1 [ruleOffFix] ruleApiFix [] ctxApiFix
      (by decide) (by decide),
    c6_router_match.2.1 "/abc" "/abc" (by decide)⟩

/-! Helper lemmas about the plugin chain's stable priority sort. -/

lemma insertByPriority_perm {V : Type} (x : Plugin V) :
    ∀ l : List (Plugin V), List.Perm (insertByPriority x l) (x :: l) := by
  intro l
  induction l with
  | nil => exact List.Perm.refl _
  | cons y l ih =>
    simp only [insertByPriority]
    split
    · exact (ih.cons y).trans (List.Perm.swap x y l)
    · exact List.Perm.refl _

lemma sortPlugins_foldl_perm {V : Type} :
    ∀ (ps acc : List (Plugin V)),
      List.Perm (ps.foldl (fun a x => insertByPriority x a) acc)
        (acc ++ ps) := by
  intro ps
  induction ps with
  | nil =>
    intro acc
    simp only [List.foldl_nil, List.append_nil]
    exact List.Perm.refl _
  | cons x ps ih =>
    intro acc
    simp only [List.foldl_cons]
    exact ((ih _).trans
      ((insertByPriority_perm x acc).append_right ps)).trans
      List.perm_middle.symm

lemma sortPlugins_perm {V : Type} (ps : List (Plugin V)) :
    List.Perm (sortPlugins ps) ps := by
  have h := sortPlugins_foldl_perm ps []
  simpa [sortPlugins] using h

lemma insertByPriority_sorted {V : Type} (x : Plugin V) :
    ∀ l : List (Plugin V), (l.map effPriority).Sorted (· ≤ ·) →
      ((insertByPriority x l).map effPriority).Sorted (· ≤ ·) := by
  intro l
  induction l with
  | nil =>
    intro _
    simp [insertByPriority]
  | cons y l ih =>
    intro h
    rw [List.map_cons, List.sorted_cons] at h
    simp only [insertByPriority]
    split
    · rename_i hle
      rw [List.map_cons, List.sorted_cons]
      refine ⟨?_, ih h.2⟩
      intro b hb
      have hb' := ((insertByPriority_perm x l).map effPriority).mem_iff.mp hb
      rcases List.mem_cons.mp hb' with hb1 | hb1
      · rw [hb1]
        exact hle
      · exact h.1 b hb1
    · rename_i hgt
      rw [List.map_cons, List.map_cons, List.sorted_cons, List.sorted_cons]
      have hxy : effPriority x ≤ effPriority y := le_of_lt (lt_of_not_le hgt)
      refine ⟨?_, h.1, h.2⟩
      intro b hb
      rcases List.mem_cons.mp hb with hb1 | hb1
      · rw [hb1]
        exact hxy
      · exact le_trans hxy (h.1 b hb1)

lemma sortPlugins_foldl_sorted {V : Type} :
    ∀ (ps acc : List (Plugin V)), (acc.map effPriority).Sorted (· ≤ ·) →
      (((ps.foldl (fun a x => insertByPriority x a) acc).map
        effPriority).Sorted (· ≤ ·)) := by
  intro ps
  induction ps with
  | nil =>
    intro acc h
    simpa using h
  | cons x ps ih =>
    intro acc h
    simp only [List.foldl_cons]
    exact ih _ (insertByPriority_sorted x acc h)

lemma sortPlugins_sorted {V : Type} (ps : List (Plugin V)) :
    ((sortPlugins ps).map effPriority).Sorted (· ≤ ·) :=
  sortPlugins_foldl_sorted ps [] (by simp)

/-- Claim C4 (amended): `executeHook` threads the primary value through
the hooks of the enabled plugins whose `requestTypes` filter (if any)
admits the request type carried by the first argument; they run one at a
time in ascending effective-priority order (`priority || 100`, an
ascending stable sort) regardless of registration order; each hook
receives the current running value, a defined return value replaces the
running value, an undefined return leaves it unchanged, and the final
running value is returned — two enabled unfiltered plugins with
priorities 10 and 20 always run 10 then 20. -/
theorem c4_hook_chain :
    (∀ (V : Type) (ps : List (Plugin V)),
      ((sortPlugins ps).map effPriority).Sorted (· ≤ ·)
        ∧ List.Perm (sortPlugins ps) ps)
    ∧ (∀ (V : Type) (rt : Option RequestType) (p : Plugin V)
        (ps : List (Plugin V)) (v : V) (h : V → Option V),
      p.hook = some h → typeMatches p rt = true →
      runHooks rt (p :: ps) v = runHooks rt ps ((h v).getD v))
    ∧ (∀ (V : Type) (rt : Option RequestType) (p : Plugin V)
        (ps : List (Plugin V)) (v : V),
      p.hook = none ∨ typeMatches p rt = false →
      runHooks rt (p :: ps) v = runHooks rt ps v)
    ∧ (∀ (V : Type) (p q : Plugin V) (v0 : V) (rt : Option RequestType),
      p.enabled = true → q.enabled = true →
      effPriority p < effPriority q →
      executeHook [p, q] v0 rt = executeHook [q, p] v0 rt
        ∧ executeHook [p, q] v0 rt = runHooks rt [p, q] v0)
    ∧ (executeHook [p10Fix, p20Fix] ([] : List Nat) none = [10, 20]
      ∧ executeHook [p20Fix, p10Fix] ([] : List Nat) none = [10, 20]
      ∧ executionOrder [p20Fix, p10Fix] none = ["p10", "p20"]
      ∧ executeHook [p10Fix, p15NoneFix, p20Fix] ([] : List Nat) none
          = [10, 20]) := by
  refine ⟨?_, ?_, ?_, ?_, by decide, by decide, by decide, by decide⟩
  · intro V ps
    exact ⟨sortPlugins_sorted ps, sortPlugins_perm ps⟩
  · intro V rt p ps v h hh ht
    simp only [runHooks, List.foldl_cons, hh, ht, if_pos]
    cases h v <;> rfl
  · intro V rt p ps v h
    rcases h with h | h
    · simp only [runHooks, List.foldl_cons, h]
    · simp only [runHooks, List.foldl_cons, h]
      cases hh : p.hook <;> simp
  · intro V p q v0 rt hp hq hpq
    have hs1 : sortPlugins [p, q] = [p, q] := by
      simp only [sortPlugins, List.foldl_cons, List.foldl_nil,
        insertByPriority]
      rw [if_pos (le_of_lt hpq)]
    have hs2 : sortPlugins [q, p] = [p, q] := by
      simp only [sortPlugins, List.foldl_cons, List.foldl_nil,
        insertByPriority]
      rw [if_neg (not_le.mpr hpq)]
    constructor
    · simp only [executeHook, List.filter, hp, hq, hs1, hs2]
    · simp only [executeHook, List.filter, hp, hq, hs1]

/-- Claim C4 witness: the two-plugin clause applied to the priority-10
and priority-20 fixtures, and the hook-step clause applied to the
priority-10 fixture. -/
theorem c4_hook_chain_witness :
    (executeHook [p10Fix, p20Fix] ([] : List Nat) none
        = executeHook [p20Fix, p10Fix] ([] : List Nat) none)
    ∧ runHooks none [p10Fix] ([] : List Nat) = [10] := by
  constructor
  · exact (c4_hook_chain.2.2.2.1 (List Nat) p10Fix p20Fix [] none rfl rfl
      (by decide)).1
  · rw [c4_hook_chain.2.1 (List Nat) none p10Fix [] []
      (fun v => some (v ++ [10])) rfl rfl]
    rfl

end NginxJS
